import Mathlib

/-!
Verification of the spacylize annotation parsing and generation pipeline.

The definitions below are a shallow embedding of `spacylize/generator.py`,
`spacylize/llm_config.py` and `spacylize/prompt_config.py`.  Python strings
are modelled as `String`/`List Char` (offsets are counted in characters, as
`len` does in Python); Python exceptions are modelled with `Except String`;
the float literal `1.0` used as a classification score is modelled as the
exact rational `1`.
-/

/-- Characters treated as whitespace by Python `str.strip()` and the regex
class `\s` (restricted to the ASCII range, which is all that the parsers in
the source ever see). -/
def isPySpace (c : Char) : Bool :=
  c == ' ' || c == '\t' || c == '\n' || c == '\r' || c == '\x0b' || c == '\x0c'

/-- Characters matched by the regex class `\w` (ASCII range): letters,
digits and the underscore. -/
def isWordChar (c : Char) : Bool :=
  c.isAlphanum || c == '_'

/-- Python `str.strip()`: remove leading and trailing whitespace. -/
def pyStrip (l : List Char) : List Char :=
  ((l.dropWhile isPySpace).reverse.dropWhile isPySpace).reverse

/-- Split a list at the first occurrence of the character `c`: returns the
part strictly before the first `c` and the part strictly after it, or `none`
when `c` does not occur.  This models how a greedy `[^c]+` regex piece
followed by the literal `c` consumes input up to the first `c`. -/
def takeUntil (c : Char) : List Char → Option (List Char × List Char)
  | [] => none
  | x :: xs =>
    if x = c then some ([], xs)
    else
      match takeUntil c xs with
      | none => none
      | some (pre, post) => some (x :: pre, post)

/-- Attempt to match the NER marker regex `\[([^\]]+)\]\(([^)]+)\)` from
`generator.py` line 55 at the head of the input.  On success returns the
first capture group (the entity text), the second capture group (the label)
and the input remaining after the match. -/
def matchMarker : List Char → Option (List Char × List Char × List Char)
  | [] => none
  | c :: rest =>
    if c = '[' then
      match takeUntil ']' rest with
      | some (ent, rest1) =>
        match rest1 with
        | c2 :: rest2 =>
          if c2 = '(' then
            match takeUntil ')' rest2 with
            | some (lab, rest3) =>
              if ent = [] ∨ lab = [] then none else some (ent, lab, rest3)
            | none => none
          else none
        | [] => none
      | none => none
    else none

/-- Left-to-right scan of `NERParser.parse` (`generator.py` lines 60-74):
`re.finditer` tries each start position in order, emits the match found
there and resumes after it; text not covered by a match is copied to the
clean-text buffer unchanged.  `fuel` is an upper bound on the number of scan
steps; each step consumes at least one input character, so any `fuel` of at
least `l.length` makes the fuel-exhaustion branch unreachable (and that
branch returns the same value the scan would). -/
def nerScanAux : Nat → List Char → List Char → List (Nat × Nat × String) →
    List Char × List (Nat × Nat × String)
  | 0, l, clean, acc => (clean ++ l, acc)
  | fuel + 1, l, clean, acc =>
    match matchMarker l with
    | some (ent, lab, rest) =>
      nerScanAux fuel rest (clean ++ ent)
        (acc ++ [(clean.length, clean.length + ent.length, String.mk lab)])
    | none =>
      match l with
      | [] => (clean, acc)
      | x :: xs => nerScanAux fuel xs (clean ++ [x]) acc

namespace NERParser

/-- Embedding of `NERParser.parse` (`generator.py` lines 43-75): strip the
inline `[ENTITY_TEXT](LABEL)` markers, returning the clean text and the list
of `(start, end, label)` character spans into the clean text. -/
def parse (text : String) : String × List (Nat × Nat × String) :=
  let r := nerScanAux text.data.length text.data [] []
  (String.mk r.1, r.2)

end NERParser

/-- Decides whether the marker regex matches anywhere in the input, i.e.
whether `re.finditer` would produce at least one match. -/
def hasMatch : List Char → Bool
  | [] => false
  | c :: cs => (matchMarker (c :: cs)).isSome || hasMatch cs

/-- Leftmost occurrence of `sep` in `l`: the part before the occurrence and
the part after it. -/
def findSub (sep : List Char) : List Char → Option (List Char × List Char)
  | [] => if sep.isPrefixOf ([] : List Char) then some ([], []) else none
  | c :: cs =>
    if sep.isPrefixOf (c :: cs) then some ([], (c :: cs).drop sep.length)
    else
      match findSub sep cs with
      | none => none
      | some (pre, post) => some (c :: pre, post)

/-- Python `str.split(sep)` for a non-empty separator: cut at each
non-overlapping occurrence of `sep`, left to right.  `fuel` bounds the
number of cuts; each cut removes at least one character, so any `fuel`
larger than `l.length` makes the exhaustion branch unreachable. -/
def splitOnSepAux (sep : List Char) : Nat → List Char → List (List Char)
  | 0, l => [l]
  | fuel + 1, l =>
    match findSub sep l with
    | none => [l]
    | some (pre, post) => pre :: splitOnSepAux sep fuel post

/-- Python `str.split(sep)` for a non-empty separator. -/
def splitOnSep (sep l : List Char) : List (List Char) :=
  splitOnSepAux sep (l.length + 1) l

/-- Attempt to match the regex `LABEL:\s*(\w+)` from `generator.py` line 137
at the head of the input, returning the capture group. -/
def matchLabelAt (l : List Char) : Option (List Char) :=
  if ("LABEL:".data).isPrefixOf l then
    let rest := l.drop ("LABEL:".data).length
    let rest2 := rest.dropWhile isPySpace
    let cat := rest2.takeWhile isWordChar
    if cat = [] then none else some cat
  else none

/-- Embedding of `re.search(r"LABEL:\s*(\w+)", s)`: try each start position
left to right and return the capture group of the first successful match. -/
def findLabel : List Char → Option (List Char)
  | [] => none
  | c :: cs =>
    match matchLabelAt (c :: cs) with
    | some cat => some cat
    | none => findLabel cs

namespace TextCatParser

/-- Embedding of `TextCatParser.parse` (`generator.py` lines 108-144):
split on `---`, require exactly two parts, strip both, and search the label
section for `LABEL:\s*(\w+)`.  A Python `ValueError` is modelled as
`Except.error` carrying the message. -/
def parse (text : String) : Except String (String × List (String × Rat)) :=
  match splitOnSep "---".data text.data with
  | [p0, p1] =>
    let label_section := pyStrip p1
    match findLabel label_section with
    | some cat => .ok (String.mk (pyStrip p0), [(String.mk cat, 1)])
    | none => .error "Invalid textcat format: missing LABEL: line"
  | _ => .error "Invalid textcat format: missing --- delimiter"

end TextCatParser

/-- SpaCy document as the pipeline uses it: the clean text, the entity
spans kept by `doc.ents`, and the category scores set by `doc.cats`. -/
structure Document where
  text : String
  ents : List (Nat × Nat × String)
  cats : List (String × Rat)
  deriving DecidableEq, Repr

/-- Abstract tokenizer capability (spaCy's `nlp.make_doc`/`doc.char_span`,
an external collaborator): given the document text, a character range and a
label, either return the token-aligned span or `none` when the range does
not align to token boundaries. -/
structure Tokenizer where
  charSpan : String → Nat → Nat → String → Option (Nat × Nat × String)

namespace NERDocumentBuilder

/-- Embedding of `NERDocumentBuilder.build` (`generator.py` lines 81-102):
attempt to align every parsed span in order; keep the spans whose alignment
succeeds and silently drop the rest. -/
def build (tok : Tokenizer) (parsed : String × List (Nat × Nat × String)) :
    Document :=
  let clean_text := parsed.1
  let spans := parsed.2.filterMap fun sp => tok.charSpan clean_text sp.1 sp.2.1 sp.2.2
  { text := clean_text, ents := spans, cats := [] }

end NERDocumentBuilder

namespace TextCatDocumentBuilder

/-- Embedding of `TextCatDocumentBuilder.build` (`generator.py` lines
147-164): tokenize the clean text and attach the category mapping. -/
def build (parsed : String × List (String × Rat)) : Document :=
  { text := parsed.1, ents := [], cats := parsed.2 }

end TextCatDocumentBuilder

/-- Tags identifying the parser classes held by the task registry. -/
inductive ParserClass where
  | nerParser
  | textcatParser
  deriving DecidableEq, Repr

/-- Tags identifying the builder classes held by the task registry. -/
inductive BuilderClass where
  | nerBuilder
  | textcatBuilder
  deriving DecidableEq, Repr

namespace TaskHandler

/-- Embedding of `TaskHandler._HANDLERS` (`generator.py` lines 170-173). -/
def handlers : List (String × ParserClass × BuilderClass) :=
  [("ner", .nerParser, .nerBuilder), ("textcat", .textcatParser, .textcatBuilder)]

/-- The `", ".join(cls._HANDLERS.keys())` string used in the error message
of `get_handler`. -/
def supported : String :=
  String.intercalate ", " (handlers.map (·.1))

/-- Embedding of `TaskHandler.get_handler` (`generator.py` lines 175-193):
look the task up in the registry, failing with a `ValueError` naming the
supported tasks when it is absent. -/
def get_handler (task : String) : Except String (ParserClass × BuilderClass) :=
  match handlers.lookup task with
  | some pb => .ok pb
  | none => .error ("Unsupported task: " ++ task ++ ". Supported tasks: " ++ supported)

end TaskHandler

/-- Task-polymorphic result of `parser_cls.parse`. -/
inductive ParsedData where
  | nerData (clean_text : String) (entities : List (Nat × Nat × String))
  | textcatData (clean_text : String) (categories : List (String × Rat))
  deriving DecidableEq, Repr

/-- Dispatch of `parser_cls.parse(result)` in `DataGenerator.run`:
`NERParser.parse` never fails, `TextCatParser.parse` may raise. -/
def parseFor : ParserClass → String → Except String ParsedData
  | .nerParser, s => .ok (.nerData (NERParser.parse s).1 (NERParser.parse s).2)
  | .textcatParser, s => (TextCatParser.parse s).map fun r => .textcatData r.1 r.2

/-- Dispatch of `builder_cls.build(nlp, parsed_data)` in
`DataGenerator.run`.  The registry only ever pairs a builder with its own
parser, so the two mismatched combinations are unreachable there; they are
mapped to an empty document. -/
def buildFor : BuilderClass → Tokenizer → ParsedData → Document
  | .nerBuilder, tok, .nerData clean ents => NERDocumentBuilder.build tok (clean, ents)
  | .textcatBuilder, _, .textcatData clean cats => TextCatDocumentBuilder.build (clean, cats)
  | _, _, .nerData clean _ => { text := clean, ents := [], cats := [] }
  | _, _, .textcatData clean _ => { text := clean, ents := [], cats := [] }

/-- Observable outcome of a `DataGenerator.run` call: the prompt pairs sent
to the completion collaborator in order, the collection written by
`doc_bin.to_disk` (`none` when the run aborted before persisting), and the
propagated exception, if any. -/
structure RunOutcome where
  calls : List (String × String)
  persisted : Option (List Document)
  err : Option String
  deriving DecidableEq, Repr

/-- The generation loop of `DataGenerator.run` (`generator.py` lines
256-268).  `oracle i` is the completion collaborator's behaviour on its
`i`-th invocation (a raised exception is `Except.error`); each round
records the `(user, system)` prompt pair passed to `generate`, then parses
and builds, aborting the whole loop on the first failure. -/
def runLoop (pc : ParserClass) (bc : BuilderClass) (tok : Tokenizer)
    (oracle : Nat → Except String String) (user system : String) :
    Nat → Nat → List (String × String) → List Document →
    List (String × String) × Option String × List Document
  | 0, _, calls, docs => (calls, none, docs)
  | rounds + 1, i, calls, docs =>
    match oracle i with
    | .error e => (calls ++ [(user, system)], some e, docs)
    | .ok result =>
      match parseFor pc result with
      | .error e => (calls ++ [(user, system)], some e, docs)
      | .ok parsed_data =>
        runLoop pc bc tok oracle user system rounds (i + 1)
          (calls ++ [(user, system)]) (docs ++ [buildFor bc tok parsed_data])

namespace DataGenerator

/-- Embedding of `DataGenerator.run` (`generator.py` lines 243-270): resolve
the `(parser, builder)` pair through the registry before the loop, run
`n_samples` rounds with the fixed prompt pair, and persist the accumulated
collection once, after the loop; any raised exception aborts the run with
nothing persisted. -/
def run (task : String) (n_samples : Nat) (system user : String)
    (tok : Tokenizer) (oracle : Nat → Except String String) : RunOutcome :=
  match TaskHandler.get_handler task with
  | .error e => { calls := [], persisted := none, err := some e }
  | .ok (pc, bc) =>
    match runLoop pc bc tok oracle user system n_samples 0 [] [] with
    | (calls, some e, _) => { calls := calls, persisted := none, err := some e }
    | (calls, none, docs) => { calls := calls, persisted := some docs, err := none }

end DataGenerator

mutual
/-- YAML configuration value as `yaml.safe_load` produces it and
`_expand_env_vars` consumes it: strings, mappings, sequences, and the
non-string scalar leaves (null, integers, booleans) that the function
returns unchanged. -/
inductive ConfigValue where
  | str (s : String)
  | null
  | intV (n : Int)
  | boolV (b : Bool)
  | dict (entries : ConfigEntries)
  | arr (items : ConfigItems)

/-- Entries of a YAML mapping. -/
inductive ConfigEntries where
  | nil
  | cons (key : String) (val : ConfigValue) (rest : ConfigEntries)

/-- Items of a YAML sequence. -/
inductive ConfigItems where
  | nil
  | cons (val : ConfigValue) (rest : ConfigItems)
end

/-- Full match of the pattern `\$\{([^}]+)\}` (`_ENV_VAR_PATTERN` in
`llm_config.py` line 37 / `prompt_config.py` line 160) against the whole
string, returning the capture group: the string must be `$` `\x7b` NAME
`\x7d` with NAME non-empty and free of `\x7d`. -/
def envRefName (s : List Char) : Option (List Char) :=
  match s with
  | c1 :: c2 :: rest =>
    if c1 = '$' ∧ c2 = '\x7b' then
      match takeUntil '\x7d' rest with
      | some (name, post) => if name = [] ∨ post ≠ [] then none else some name
      | none => none
    else none
  | _ => none

mutual
/-- Embedding of `_expand_env_vars` (`llm_config.py` lines 40-64 and its
identical copy in `prompt_config.py` lines 163-187), with the process
environment `os.getenv` made an explicit mapping `env`: a string that fully
matches the pattern is replaced by `env NAME` (Python `None`, i.e. `null`,
when the variable is unset), every other string is left literal, mappings
and sequences are traversed recursively, and all other values are returned
unchanged. -/
def _expand_env_vars (env : String → Option String) : ConfigValue → ConfigValue
  | .str s =>
    match envRefName s.data with
    | some name =>
      match env (String.mk name) with
      | some v => .str v
      | none => .null
    | none => .str s
  | .dict entries => .dict (expandEntries env entries)
  | .arr items => .arr (expandItems env items)
  | .null => .null
  | .intV n => .intV n
  | .boolV b => .boolV b

/-- Recursive expansion over the entries of a mapping (the dict
comprehension in `_expand_env_vars`): keys are kept, values expanded. -/
def expandEntries (env : String → Option String) : ConfigEntries → ConfigEntries
  | .nil => .nil
  | .cons k v rest => .cons k (_expand_env_vars env v) (expandEntries env rest)

/-- Recursive expansion over the items of a sequence (the list
comprehension in `_expand_env_vars`). -/
def expandItems (env : String → Option String) : ConfigItems → ConfigItems
  | .nil => .nil
  | .cons v rest => .cons (_expand_env_vars env v) (expandItems env rest)
end

/-- Shape of `load_llm_config` (`llm_config.py` lines 67-87) after the YAML
text has been read: expand environment variables, then hand the result to
schema validation (pydantic, an external collaborator, abstracted as
`validate`); expansion itself is total, so the only failure point is the
validation step. -/
def load_llm_config {α : Type} (env : String → Option String)
    (validate : ConfigValue → Except String α) (raw : ConfigValue) :
    Except String α :=
  validate (_expand_env_vars env raw)

/-- Shift a span's character offsets by `n`.  Used to relate a scan started
with a non-empty clean-text buffer to the scan started empty. -/
def shiftSpan (n : Nat) (sp : Nat × Nat × String) : Nat × Nat × String :=
  (n + sp.1, n + sp.2.1, sp.2.2)

/-- One marker occurrence together with the literal text preceding it:
`gap` is the source text before the marker, `ent` the entity text between
the brackets, `lab` the label between the parentheses. -/
structure Seg where
  gap : List Char
  ent : List Char
  lab : List Char

/-- Reassemble the source text from its marker decomposition: each segment
contributes `gap ++ "[" ++ ent ++ "](" ++ lab ++ ")"`, and `tl` is the text
after the last marker. -/
def assemble : List Seg → List Char → List Char
  | [], tl => tl
  | sg :: rest, tl =>
    sg.gap ++ '[' :: (sg.ent ++ ']' :: '(' :: (sg.lab ++ ')' :: assemble rest tl))

/-- Clean text the scan should produce from a decomposition: the gaps and
entity texts in order, markers stripped, with the tail appended. -/
def cleanOf : List Seg → List Char → List Char
  | [], tl => tl
  | sg :: rest, tl => sg.gap ++ sg.ent ++ cleanOf rest tl

/-- Spans the scan should produce from a decomposition, with `ofs` the
number of clean-text characters already emitted. -/
def spansOf : List Seg → Nat → List (Nat × Nat × String)
  | [], _ => []
  | sg :: rest, ofs =>
    (ofs + sg.gap.length, ofs + sg.gap.length + sg.ent.length, String.mk sg.lab) ::
      spansOf rest (ofs + sg.gap.length + sg.ent.length)

/-- Tokenizer in which every character range aligns to token boundaries,
used to instantiate theorems about the builder and the orchestrator. -/
def alignAll : Tokenizer :=
  ⟨fun _ s e lab => some (s, e, lab)⟩


/-! ### Lemmas about `takeUntil` and `matchMarker` -/

theorem takeUntil_append (c : Char) (pre post : List Char) (h : c ∉ pre) :
    takeUntil c (pre ++ c :: post) = some (pre, post) := by
  induction pre with
  | nil => simp [takeUntil]
  | cons x xs ih =>
    have hx : x ≠ c := fun hxc => h (hxc ▸ List.mem_cons_self x xs)
    have hxs : c ∉ xs := fun hc => h (List.mem_cons_of_mem x hc)
    simp [takeUntil, hx, ih hxs]

theorem takeUntil_sound (c : Char) :
    ∀ l pre post, takeUntil c l = some (pre, post) →
      l = pre ++ c :: post ∧ c ∉ pre := by
  intro l
  induction l with
  | nil => intro pre post h; simp [takeUntil] at h
  | cons x xs ih =>
    intro pre post h
    by_cases hx : x = c
    · subst hx
      simp [takeUntil] at h
      obtain ⟨h1, h2⟩ := h
      subst h1; subst h2
      simp
    · simp only [takeUntil, if_neg hx] at h
      rcases htu : takeUntil c xs with _ | ⟨p, q⟩
      · rw [htu] at h; simp at h
      · rw [htu] at h
        simp at h
        obtain ⟨h1, h2⟩ := h
        subst h1; subst h2
        obtain ⟨hl, hm⟩ := ih p q htu
        constructor
        · simp [hl]
        · intro hc
          rcases List.mem_cons.mp hc with hc1 | hc2
          · exact hx hc1.symm
          · exact hm hc2

theorem matchMarker_none_head (c : Char) (cs : List Char) (h : c ≠ '[') :
    matchMarker (c :: cs) = none := by
  simp [matchMarker, h]

theorem matchMarker_marker (e lab b : List Char)
    (he : ']' ∉ e) (hene : e ≠ []) (hlab : ')' ∉ lab) (hlabne : lab ≠ []) :
    matchMarker ('[' :: (e ++ ']' :: '(' :: (lab ++ ')' :: b))) =
      some (e, lab, b) := by
  have h1 : takeUntil ']' (e ++ ']' :: ('(' :: (lab ++ ')' :: b))) =
      some (e, '(' :: (lab ++ ')' :: b)) := takeUntil_append ']' e _ he
  have h2 : takeUntil ')' (lab ++ ')' :: b) = some (lab, b) :=
    takeUntil_append ')' lab b hlab
  simp [matchMarker, h1, h2, hene, hlabne]

theorem matchMarker_sound :
    ∀ l ent lab rest, matchMarker l = some (ent, lab, rest) →
      l = '[' :: (ent ++ ']' :: '(' :: (lab ++ ')' :: rest)) ∧
      ent ≠ [] ∧ lab ≠ [] ∧ ']' ∉ ent ∧ ')' ∉ lab := by
  intro l ent lab rest h
  match l with
  | [] => simp [matchMarker] at h
  | c :: cs =>
    by_cases hc : c = '['
    · subst hc
      simp only [matchMarker, if_pos rfl] at h
      rcases h1 : takeUntil ']' cs with _ | ⟨ent', rest1⟩
      · rw [h1] at h; simp at h
      · rw [h1] at h
        match rest1 with
        | [] => simp at h
        | c2 :: rest2 =>
          by_cases hc2 : c2 = '('
          · subst hc2
            simp only [if_pos rfl] at h
            rcases h2 : takeUntil ')' rest2 with _ | ⟨lab', rest3⟩
            · rw [h2] at h; simp at h
            · rw [h2] at h
              by_cases hne : ent' = [] ∨ lab' = []
              · simp [if_pos hne] at h
              · simp only [if_neg hne, Option.some.injEq, Prod.mk.injEq] at h
                push_neg at hne
                obtain ⟨rfl, rfl, rfl⟩ := h
                obtain ⟨hcs, hment⟩ :=
                  takeUntil_sound ']' cs ent ('(' :: rest2) (by rw [h1])
                obtain ⟨hrest2, hmlab⟩ := takeUntil_sound ')' rest2 lab rest (by rw [h2])
                refine ⟨?_, hne.1, hne.2, hment, hmlab⟩
                rw [hcs, hrest2]
          · simp [if_neg hc2] at h
    · rw [matchMarker_none_head c cs hc] at h
      exact absurd h (by simp)

/-! ### Lemmas about the scan `nerScanAux` -/

theorem nerScanAux_no_bracket (fuel : Nat) :
    ∀ b clean acc, '[' ∉ b →
      nerScanAux fuel b clean acc = (clean ++ b, acc) := by
  induction fuel with
  | zero => intro b clean acc _; rfl
  | succ f ih =>
    intro b clean acc hb
    match b with
    | [] => simp [nerScanAux, matchMarker]
    | x :: xs =>
      have hx : x ≠ '[' := fun h => hb (h ▸ List.mem_cons_self x xs)
      have hxs : '[' ∉ xs := fun h => hb (List.mem_cons_of_mem x h)
      simp only [nerScanAux, matchMarker_none_head x xs hx]
      rw [ih xs (clean ++ [x]) acc hxs]
      simp

theorem nerScanAux_skip (a : List Char) :
    ∀ fuel b clean acc, '[' ∉ a →
      nerScanAux (a.length + fuel) (a ++ b) clean acc =
        nerScanAux fuel b (clean ++ a) acc := by
  induction a with
  | nil => intro fuel b clean acc _; simp
  | cons x xs ih =>
    intro fuel b clean acc ha
    have hx : x ≠ '[' := fun h => ha (h ▸ List.mem_cons_self x xs)
    have hxs : '[' ∉ xs := fun h => ha (List.mem_cons_of_mem x h)
    have hlen : (x :: xs).length + fuel = (xs.length + fuel) + 1 := by
      simp [List.length_cons]; omega
    rw [hlen]
    show nerScanAux ((xs.length + fuel) + 1) (x :: (xs ++ b)) clean acc = _
    simp only [nerScanAux, matchMarker_none_head x (xs ++ b) hx]
    rw [ih fuel b (clean ++ [x]) acc hxs]
    simp

theorem nerScanAux_marker (e lab b : List Char) (fuel : Nat) (clean : List Char)
    (acc : List (Nat × Nat × String))
    (he : ']' ∉ e) (hene : e ≠ []) (hlab : ')' ∉ lab) (hlabne : lab ≠ []) :
    nerScanAux (fuel + 1) ('[' :: (e ++ ']' :: '(' :: (lab ++ ')' :: b))) clean acc =
      nerScanAux fuel b (clean ++ e)
        (acc ++ [(clean.length, clean.length + e.length, String.mk lab)]) := by
  simp only [nerScanAux, matchMarker_marker e lab b he hene hlab hlabne]

theorem comp_shiftSpan (a b : Nat) : shiftSpan a ∘ shiftSpan b = shiftSpan (a + b) := by
  funext sp
  simp [shiftSpan, Nat.add_assoc]

theorem nerScanAux_shift :
    ∀ fuel l clean acc,
      nerScanAux fuel l clean acc =
        (clean ++ (nerScanAux fuel l [] []).1,
         acc ++ (nerScanAux fuel l [] []).2.map (shiftSpan clean.length)) := by
  intro fuel
  induction fuel with
  | zero => intro l clean acc; simp [nerScanAux]
  | succ f ih =>
    intro l clean acc
    rcases hm : matchMarker l with _ | ⟨ent, lab, rest⟩
    · match l with
      | [] => simp [nerScanAux, hm]
      | x :: xs =>
        simp only [nerScanAux, hm, List.nil_append, List.length_nil, Nat.zero_add]
        rw [ih xs (clean ++ [x]) acc, ih xs [x] []]
        simp [List.map_map, comp_shiftSpan]
    · simp only [nerScanAux, hm, List.nil_append, List.length_nil, Nat.zero_add]
      rw [ih rest (clean ++ ent) (acc ++ [(clean.length, clean.length + ent.length, String.mk lab)]),
        ih rest ent [(0, ent.length, String.mk lab)]]
      simp [List.map_map, comp_shiftSpan, shiftSpan, List.length_append, Nat.add_assoc]

theorem nerScanAux_wf (fuel : Nat) :
    ∀ l,
      (∀ sp ∈ (nerScanAux fuel l [] []).2,
         sp.1 < sp.2.1 ∧ sp.2.1 ≤ (nerScanAux fuel l [] []).1.length) ∧
      List.Chain' (fun a b => a.2.1 ≤ b.1) (nerScanAux fuel l [] []).2 := by
  induction fuel with
  | zero => intro l; simp [nerScanAux]
  | succ f ih =>
    intro l
    rcases hm : matchMarker l with _ | ⟨ent, lab, rest⟩
    · match l with
      | [] => simp [nerScanAux, hm]
      | x :: xs =>
        simp only [nerScanAux, hm, List.nil_append]
        rw [nerScanAux_shift f xs [x] []]
        obtain ⟨hb, hc⟩ := ih xs
        constructor
        · intro sp hsp
          simp only [List.nil_append, List.mem_map] at hsp
          obtain ⟨sp', hsp', rfl⟩ := hsp
          have h := hb sp' hsp'
          simp only [shiftSpan, List.length_append, List.length_cons, List.length_nil]
          omega
        · simp only [List.nil_append]
          rw [List.chain'_map]
          exact hc.imp fun a b h => by simp only [shiftSpan]; omega
    · simp only [nerScanAux, hm, List.nil_append, List.length_nil, Nat.zero_add]
      rw [nerScanAux_shift f rest ent [(0, ent.length, String.mk lab)]]
      have hent : ent ≠ [] := (matchMarker_sound l ent lab rest hm).2.1
      obtain ⟨hb, hc⟩ := ih rest
      constructor
      · intro sp hsp
        simp only [List.cons_append, List.nil_append, List.mem_cons, List.mem_map] at hsp
        rcases hsp with rfl | ⟨sp', hsp', rfl⟩
        · refine ⟨List.length_pos.mpr hent, ?_⟩
          simp [List.length_append]
        · have h := hb sp' hsp'
          simp only [shiftSpan, List.length_append]
          omega
      · simp only [List.cons_append, List.nil_append]
        rw [List.chain'_cons']
        constructor
        · intro b hbmem
          have hb2 : b ∈ List.map (shiftSpan ent.length) (nerScanAux f rest [] []).2 :=
            List.mem_of_mem_head? hbmem
          simp only [List.mem_map] at hb2
          obtain ⟨sp', _, rfl⟩ := hb2
          simp only [shiftSpan]
          omega
        · rw [List.chain'_map]
          exact hc.imp fun a b h => by simp only [shiftSpan]; omega

theorem nerScanAux_noMatch (fuel : Nat) :
    ∀ l clean acc, hasMatch l = false →
      nerScanAux fuel l clean acc = (clean ++ l, acc) := by
  induction fuel with
  | zero => intro l clean acc _; rfl
  | succ f ih =>
    intro l clean acc h
    match l with
    | [] => simp [nerScanAux, matchMarker]
    | x :: xs =>
      rcases hm : matchMarker (x :: xs) with _ | v
      · simp only [hasMatch, hm, Option.isSome_none, Bool.false_or] at h
        simp only [nerScanAux, hm]
        rw [ih xs (clean ++ [x]) acc h]
        simp
      · simp [hasMatch, hm] at h

theorem nerScanAux_assemble :
    ∀ segs tl clean acc fuel,
      (∀ sg ∈ segs,
        '[' ∉ sg.gap ∧ ']' ∉ sg.ent ∧ sg.ent ≠ [] ∧ ')' ∉ sg.lab ∧ sg.lab ≠ []) →
      '[' ∉ tl →
      nerScanAux ((assemble segs tl).length + fuel) (assemble segs tl) clean acc =
        (clean ++ cleanOf segs tl, acc ++ spansOf segs clean.length) := by
  intro segs
  induction segs with
  | nil =>
    intro tl clean acc fuel _ htl
    simp [assemble, cleanOf, spansOf, nerScanAux_no_bracket _ tl clean acc htl]
  | cons sg rest ih =>
    intro tl clean acc fuel hseg htl
    obtain ⟨hgap, hent, hentne, hlab, hlabne⟩ := hseg sg (List.mem_cons_self sg rest)
    have hrest := fun s hs => hseg s (List.mem_cons_of_mem sg hs)
    simp only [assemble]
    have harith1 :
        (sg.gap ++ '[' :: (sg.ent ++ ']' :: '(' :: (sg.lab ++ ')' :: assemble rest tl))).length
            + fuel =
          sg.gap.length +
            (((assemble rest tl).length + (sg.ent.length + sg.lab.length + 3 + fuel)) + 1) := by
      simp only [List.length_append, List.length_cons]
      omega
    rw [harith1,
      nerScanAux_skip sg.gap ((assemble rest tl).length + (sg.ent.length + sg.lab.length + 3 + fuel) + 1)
        ('[' :: (sg.ent ++ ']' :: '(' :: (sg.lab ++ ')' :: assemble rest tl))) clean acc hgap,
      nerScanAux_marker sg.ent sg.lab (assemble rest tl)
        ((assemble rest tl).length + (sg.ent.length + sg.lab.length + 3 + fuel))
        (clean ++ sg.gap) acc hent hentne hlab hlabne,
      ih tl ((clean ++ sg.gap) ++ sg.ent)
        (acc ++ [((clean ++ sg.gap).length, (clean ++ sg.gap).length + sg.ent.length,
          String.mk sg.lab)])
        (sg.ent.length + sg.lab.length + 3 + fuel) hrest htl]
    simp [cleanOf, spansOf, List.length_append, List.append_assoc, Nat.add_assoc]

/-! ### Claim theorems -/

/-- C1: `NERParser.parse` performs the left-to-right scan over non-overlapping
marker occurrences: for any decomposition of the source into gap/entity/label
segments followed by a marker-free tail, each segment contributes its gap
unchanged and then its entity text to the clean-text buffer, with a span
recording the clean-text offsets of the entity text tagged with the label,
and the tail is copied unchanged after the last match; and in particular
parsing `"Hello [John Doe](PERSON), welcome!"` yields clean text
`"Hello John Doe, welcome!"` and spans `[(6, 14, "PERSON")]`. -/
theorem C1_ner_parse_scan :
    (∀ (segs : List Seg) (tl : List Char),
        (∀ sg ∈ segs,
          '[' ∉ sg.gap ∧ ']' ∉ sg.ent ∧ sg.ent ≠ [] ∧ ')' ∉ sg.lab ∧ sg.lab ≠ []) →
        '[' ∉ tl →
        NERParser.parse (String.mk (assemble segs tl)) =
          (String.mk (cleanOf segs tl), spansOf segs 0)) ∧
    NERParser.parse "Hello [John Doe](PERSON), welcome!" =
      ("Hello John Doe, welcome!", [(6, 14, "PERSON")]) := by
  constructor
  · intro segs tl hseg htl
    have h := nerScanAux_assemble segs tl [] [] 0 hseg htl
    rw [Nat.add_zero] at h
    simp only [List.nil_append, List.length_nil] at h
    have h2 : NERParser.parse (String.mk (assemble segs tl)) =
        (String.mk (nerScanAux (assemble segs tl).length (assemble segs tl) [] []).1,
         (nerScanAux (assemble segs tl).length (assemble segs tl) [] []).2) := rfl
    rw [h2, h]
  · decide

/-- Witness for C1 at the decomposition of the spec's example input. -/
theorem C1_ner_parse_scan_witness :
    NERParser.parse (String.mk (assemble
        [⟨"Hello ".data, "John Doe".data, "PERSON".data⟩] ", welcome!".data)) =
      (String.mk (cleanOf
        [⟨"Hello ".data, "John Doe".data, "PERSON".data⟩] ", welcome!".data),
       spansOf [⟨"Hello ".data, "John Doe".data, "PERSON".data⟩] 0) :=
  C1_ner_parse_scan.1 _ _ (by decide) (by decide)

/-- C2: `NERParser.parse` is total by construction (it is a Lean function,
and the scan handles arbitrary malformed markup by copying it literally);
every returned span `(start, end, label)` satisfies `start < end` and
`end ≤ length of the clean text` (`0 ≤ start` holds trivially in `Nat`);
the spans are in left-to-right order with no two overlapping (each span
ends at or before the next one starts); and an input without any marker
occurrence parses to the original string with no spans. -/
theorem C2_ner_parse_safe (t : String) :
    (∀ sp ∈ (NERParser.parse t).2,
       sp.1 < sp.2.1 ∧ sp.2.1 ≤ (NERParser.parse t).1.length) ∧
    List.Chain' (fun a b => a.2.1 ≤ b.1) (NERParser.parse t).2 ∧
    (hasMatch t.data = false → NERParser.parse t = (t, [])) := by
  obtain ⟨hb, hc⟩ := nerScanAux_wf t.data.length t.data
  refine ⟨fun sp hsp => hb sp hsp, hc, fun h => ?_⟩
  have hnm := nerScanAux_noMatch t.data.length t.data [] [] h
  simp only [List.nil_append] at hnm
  have h2 : NERParser.parse t =
      (String.mk (nerScanAux t.data.length t.data [] []).1,
       (nerScanAux t.data.length t.data [] []).2) := rfl
  rw [h2, hnm]

/-- Witness for C2 at a marker-free input. -/
theorem C2_ner_parse_safe_witness :
    hasMatch "Hello, welcome!".data = false ∧
    NERParser.parse "Hello, welcome!" = ("Hello, welcome!", []) :=
  ⟨by decide, (C2_ner_parse_safe "Hello, welcome!").2.2 (by decide)⟩

/-- C4: `NERDocumentBuilder.build` keeps exactly the spans whose
character-to-token alignment succeeds, in their original order (the kept
list is the order-preserving `filterMap` of the alignment over the parsed
spans); spans that fail to align are simply absent, and building is a total
function, so it never raises. -/
theorem C4_ner_builder_alignment (tok : Tokenizer) (clean : String)
    (spans : List (Nat × Nat × String)) :
    (NERDocumentBuilder.build tok (clean, spans)).ents =
      spans.filterMap (fun sp => tok.charSpan clean sp.1 sp.2.1 sp.2.2) ∧
    (∀ a, a ∈ (NERDocumentBuilder.build tok (clean, spans)).ents ↔
      ∃ sp ∈ spans, tok.charSpan clean sp.1 sp.2.1 sp.2.2 = some a) ∧
    (NERDocumentBuilder.build tok (clean, spans)).text = clean := by
  refine ⟨rfl, fun a => ?_, rfl⟩
  simp [NERDocumentBuilder.build, List.mem_filterMap]

/-- C7: the registry succeeds exactly on `"ner"` and `"textcat"`, returning
the task's parser/builder pair, and fails on every other task name with an
error naming the two supported tasks. -/
theorem C7_get_handler :
    TaskHandler.get_handler "ner" = .ok (.nerParser, .nerBuilder) ∧
    TaskHandler.get_handler "textcat" = .ok (.textcatParser, .textcatBuilder) ∧
    ∀ t : String, t ≠ "ner" → t ≠ "textcat" →
      TaskHandler.get_handler t =
        .error ("Unsupported task: " ++ t ++ ". Supported tasks: " ++ "ner, textcat") := by
  refine ⟨rfl, rfl, fun t h1 h2 => ?_⟩
  have hs : TaskHandler.supported = "ner, textcat" := rfl
  have hb1 : (t == "ner") = false := beq_eq_false_iff_ne.mpr h1
  have hb2 : (t == "textcat") = false := beq_eq_false_iff_ne.mpr h2
  simp [TaskHandler.get_handler, TaskHandler.handlers, List.lookup, hb1, hb2, hs]

/-- Witness for C7 at the spec's example of an unsupported task name. -/
theorem C7_get_handler_witness :
    TaskHandler.get_handler "anything-else" =
      .error ("Unsupported task: " ++ "anything-else" ++
        ". Supported tasks: " ++ "ner, textcat") :=
  C7_get_handler.2.2 "anything-else" (by decide) (by decide)

theorem splitOnSepAux_ne_nil (sep : List Char) (fuel : Nat) (l : List Char) :
    splitOnSepAux sep fuel l ≠ [] := by
  cases fuel with
  | zero => simp [splitOnSepAux]
  | succ f =>
    rcases h : findSub sep l with _ | ⟨pre, post⟩ <;> simp [splitOnSepAux, h]

/-- C3: `TextCatParser.parse` fails exactly when the `---` delimiter is
absent (the split has one part), appears more than once (the split has at
least three parts), or the stripped label section has no `LABEL: <word>`
match; on every other input it returns the stripped body together with
exactly one category mapped to score 1.0; in particular the spec's example
parses to `("A great product.", [("POSITIVE", 1)])`.  Non-overlapping
occurrences of the delimiter number one less than the parts of the split,
so one part means zero occurrences and three or more parts mean at least
two occurrences. -/
theorem C3_textcat_parse (t : String) :
    ((∃ e, TextCatParser.parse t = .error e) ↔
       (splitOnSep "---".data t.data).length = 1 ∨
       3 ≤ (splitOnSep "---".data t.data).length ∨
       ∃ p0 p1, splitOnSep "---".data t.data = [p0, p1] ∧
         findLabel (pyStrip p1) = none) ∧
    (∀ body cats, TextCatParser.parse t = .ok (body, cats) →
       ∃ p0 p1 cat, splitOnSep "---".data t.data = [p0, p1] ∧
         findLabel (pyStrip p1) = some cat ∧
         body = String.mk (pyStrip p0) ∧ cats = [(String.mk cat, 1)]) ∧
    TextCatParser.parse "A great product.\n---\nLABEL: POSITIVE" =
      .ok ("A great product.", [("POSITIVE", 1)]) := by
  have hne : splitOnSep "---".data t.data ≠ [] :=
    splitOnSepAux_ne_nil "---".data (t.data.length + 1) t.data
  have hunfold : TextCatParser.parse t =
      (match splitOnSep "---".data t.data with
        | [p0, p1] =>
          match findLabel (pyStrip p1) with
          | some cat => .ok (String.mk (pyStrip p0), [(String.mk cat, 1)])
          | none => .error "Invalid textcat format: missing LABEL: line"
        | _ => .error "Invalid textcat format: missing --- delimiter") := rfl
  rcases hp : splitOnSep "---".data t.data with _ | ⟨p0, _ | ⟨p1, _ | ⟨p2, ps3⟩⟩⟩
  · exact absurd hp hne
  · rw [hp] at hunfold
    have h2 : TextCatParser.parse t =
        .error "Invalid textcat format: missing --- delimiter" := by rw [hunfold]
    refine ⟨?_, ?_, by rfl⟩
    · simp [h2]
    · intro body cats hok
      rw [h2] at hok
      exact absurd hok (by simp)
  · rw [hp] at hunfold
    have h3 : TextCatParser.parse t =
        (match findLabel (pyStrip p1) with
          | some cat => .ok (String.mk (pyStrip p0), [(String.mk cat, 1)])
          | none => .error "Invalid textcat format: missing LABEL: line") := by
      rw [hunfold]
    rcases hf : findLabel (pyStrip p1) with _ | cat
    · rw [hf] at h3
      have h2 : TextCatParser.parse t =
          .error "Invalid textcat format: missing LABEL: line" := by rw [h3]
      refine ⟨?_, ?_, by rfl⟩
      · simp only [h2]
        constructor
        · intro _
          exact Or.inr (Or.inr ⟨p0, p1, rfl, hf⟩)
        · intro _
          exact ⟨_, rfl⟩
      · intro body cats hok
        rw [h2] at hok
        exact absurd hok (by simp)
    · rw [hf] at h3
      have h2 : TextCatParser.parse t =
          .ok (String.mk (pyStrip p0), [(String.mk cat, 1)]) := by rw [h3]
      refine ⟨?_, ?_, by rfl⟩
      · simp only [h2]
        constructor
        · rintro ⟨e, he⟩
          exact absurd he (by simp)
        · rintro (h1 | h33 | ⟨q0, q1, heq, hnone⟩)
          · simp at h1
          · simp at h33
          · obtain ⟨rfl, rfl⟩ : p0 = q0 ∧ p1 = q1 := by
              simp only [List.cons.injEq, and_true] at heq
              exact ⟨heq.1, heq.2⟩
            rw [hf] at hnone
            exact absurd hnone (by simp)
      · intro body cats hok
        rw [h2] at hok
        simp only [Except.ok.injEq, Prod.mk.injEq] at hok
        exact ⟨p0, p1, cat, rfl, hf, hok.1.symm, hok.2.symm⟩
  · rw [hp] at hunfold
    have h2 : TextCatParser.parse t =
        .error "Invalid textcat format: missing --- delimiter" := by rw [hunfold]
    refine ⟨?_, ?_, by rfl⟩
    · simp only [h2, List.length_cons]
      constructor
      · intro _
        refine Or.inr (Or.inl ?_)
        omega
      · intro _
        exact ⟨_, rfl⟩
    · intro body cats hok
      rw [h2] at hok
      exact absurd hok (by simp)

/-- Witness for C3 at the spec's example input. -/
theorem C3_textcat_parse_witness :
    ∃ p0 p1 cat,
      splitOnSep "---".data ("A great product.\n---\nLABEL: POSITIVE").data = [p0, p1] ∧
      findLabel (pyStrip p1) = some cat ∧
      "A great product." = String.mk (pyStrip p0) ∧
      [("POSITIVE", (1 : Rat))] = [(String.mk cat, 1)] :=
  (C3_textcat_parse "A great product.\n---\nLABEL: POSITIVE").2.1
    "A great product." [("POSITIVE", 1)] (by rfl)

theorem matchLabelAt_word (l cat : List Char) (h : matchLabelAt l = some cat) :
    cat ≠ [] ∧ ∀ c ∈ cat, isWordChar c = true := by
  simp only [matchLabelAt] at h
  split_ifs at h with h1 h2
  · simp only [Option.some.injEq] at h
    rw [← h]
    refine ⟨?_, fun c hc => List.mem_takeWhile_imp hc⟩
    intro hemp
    exact h2 (by simpa using hemp)

theorem findLabel_word :
    ∀ (s cat : List Char), findLabel s = some cat →
      cat ≠ [] ∧ ∀ c ∈ cat, isWordChar c = true := by
  intro s
  induction s with
  | nil => intro cat h; simp [findLabel] at h
  | cons c cs ih =>
    intro cat h
    rcases hm : matchLabelAt (c :: cs) with _ | cat2
    · simp only [findLabel, hm] at h
      exact ih cat h
    · simp only [findLabel, hm, Option.some.injEq] at h
      subst h
      exact matchLabelAt_word (c :: cs) cat2 hm

/-- C10: the category extracted by `TextCatParser.parse` is always a
non-empty run of word characters (letters, digits, underscore), because the
regex group `\w+` can match nothing else; consequently a label line such as
`LABEL: VERY-POSITIVE` does not fail but silently yields the truncated
category `"VERY"` with score 1.0. -/
theorem C10_textcat_label_truncation :
    (∀ (s cat : List Char), findLabel s = some cat →
       cat ≠ [] ∧ ∀ c ∈ cat, isWordChar c = true) ∧
    TextCatParser.parse "A great product.\n---\nLABEL: VERY-POSITIVE" =
      .ok ("A great product.", [("VERY", 1)]) :=
  ⟨findLabel_word, by rfl⟩

/-- Witness for C10 at the truncating label line. -/
theorem C10_textcat_label_truncation_witness :
    findLabel ("LABEL: VERY-POSITIVE".data) = some "VERY".data ∧
    ("VERY".data ≠ [] ∧ ∀ c ∈ "VERY".data, isWordChar c = true) :=
  ⟨by decide, C10_textcat_label_truncation.1 "LABEL: VERY-POSITIVE".data "VERY".data (by decide)⟩

theorem runLoop_ok (pc : ParserClass) (bc : BuilderClass) (tok : Tokenizer)
    (oracle : Nat → Except String String) (user system : String)
    (resp : Nat → String) (pd : Nat → ParsedData) :
    ∀ rounds i calls docs,
      (∀ j, j < rounds → oracle (i + j) = .ok (resp (i + j)) ∧
        parseFor pc (resp (i + j)) = .ok (pd (i + j))) →
      runLoop pc bc tok oracle user system rounds i calls docs =
        (calls ++ List.replicate rounds (user, system), none,
         docs ++ (List.range rounds).map fun j => buildFor bc tok (pd (i + j))) := by
  intro rounds
  induction rounds with
  | zero => intro i calls docs _; simp [runLoop]
  | succ r ih =>
    intro i calls docs h
    obtain ⟨ho, hpr⟩ := h 0 (Nat.succ_pos r)
    rw [Nat.add_zero] at ho hpr
    simp only [runLoop, ho, hpr]
    rw [ih (i + 1) (calls ++ [(user, system)]) (docs ++ [buildFor bc tok (pd i)])
      (fun j hj => by
        have hh := h (j + 1) (Nat.succ_lt_succ hj)
        have he : i + (j + 1) = i + 1 + j := by omega
        rwa [he] at hh)]
    have hfun : (fun j => buildFor bc tok (pd (i + 1 + j))) =
        (fun j => buildFor bc tok (pd (i + (j + 1)))) := by
      funext j
      have he : i + 1 + j = i + (j + 1) := by omega
      rw [he]
    rw [hfun]
    simp [List.replicate_succ, List.range_succ_eq_map, List.append_assoc,
      List.map_map, Function.comp]

theorem runLoop_fail (pc : ParserClass) (bc : BuilderClass) (tok : Tokenizer)
    (oracle : Nat → Except String String) (user system : String)
    (resp : Nat → String) (pd : Nat → ParsedData) (e : String) :
    ∀ j rounds i calls docs,
      j < rounds →
      (∀ k, k < j → oracle (i + k) = .ok (resp (i + k)) ∧
        parseFor pc (resp (i + k)) = .ok (pd (i + k))) →
      (oracle (i + j) = .error e ∨
        ∃ r, oracle (i + j) = .ok r ∧ parseFor pc r = .error e) →
      ∃ docs2, runLoop pc bc tok oracle user system rounds i calls docs =
        (calls ++ List.replicate (j + 1) (user, system), some e, docs2) := by
  intro j
  induction j with
  | zero =>
    intro rounds i calls docs hj _ hfail
    match rounds, hj with
    | r + 1, _ =>
      rcases hfail with ho | ⟨resp0, ho, hperr⟩
      · rw [Nat.add_zero] at ho
        exact ⟨docs, by simp [runLoop, ho]⟩
      · rw [Nat.add_zero] at ho
        exact ⟨docs, by simp [runLoop, ho, hperr]⟩
  | succ k ih =>
    intro rounds i calls docs hj hpre hfail
    match rounds, hj with
    | r + 1, hj =>
      obtain ⟨ho, hpr⟩ := hpre 0 (Nat.succ_pos k)
      rw [Nat.add_zero] at ho hpr
      simp only [runLoop, ho, hpr]
      have hj2 : k < r := by omega
      obtain ⟨docs2, hrec⟩ := ih r (i + 1) (calls ++ [(user, system)])
        (docs ++ [buildFor bc tok (pd i)]) hj2
        (fun m hm => by
          have hh := hpre (m + 1) (Nat.succ_lt_succ hm)
          have he : i + (m + 1) = i + 1 + m := by omega
          rwa [he] at hh)
        (by
          have he : i + (k + 1) = i + 1 + k := by omega
          rwa [he] at hfail)
      refine ⟨docs2, ?_⟩
      rw [hrec]
      simp [List.replicate_succ, List.append_assoc]

/-- C5: absent failures, `DataGenerator.run` invokes the completion
collaborator exactly `n_samples` times, every time with the same unchanged
`(user, system)` prompt pair, accumulates exactly `n_samples` documents in
strict round-issue order (round `i`'s document is at index `i`), and
persists the full collection exactly once, after all rounds. -/
theorem C5_run_rounds (task : String) (n : Nat) (system user : String)
    (tok : Tokenizer) (oracle : Nat → Except String String)
    (pc : ParserClass) (bc : BuilderClass) (resp : Nat → String) (pd : Nat → ParsedData)
    (hh : TaskHandler.get_handler task = .ok (pc, bc))
    (hround : ∀ i, i < n → oracle i = .ok (resp i) ∧ parseFor pc (resp i) = .ok (pd i)) :
    DataGenerator.run task n system user tok oracle =
      { calls := List.replicate n (user, system),
        persisted := some ((List.range n).map fun i => buildFor bc tok (pd i)),
        err := none } := by
  have hloop := runLoop_ok pc bc tok oracle user system resp pd n 0 [] []
    (fun j hj => by simpa using hround j (by omega))
  simp only [DataGenerator.run, hh]
  rw [hloop]
  simp

/-- Witness for C5: two successful NER rounds with a deterministic fake
collaborator produce two identical documents and one persisted collection. -/
theorem C5_run_rounds_witness :
    DataGenerator.run "ner" 2 "sys" "usr" alignAll (fun _ => .ok "hi [Bob](PER)") =
      { calls := [("usr", "sys"), ("usr", "sys")],
        persisted := some [⟨"hi Bob", [(3, 6, "PER")], []⟩, ⟨"hi Bob", [(3, 6, "PER")], []⟩],
        err := none } := by
  have h := C5_run_rounds "ner" 2 "sys" "usr" alignAll (fun _ => .ok "hi [Bob](PER)")
    .nerParser .nerBuilder (fun _ => "hi [Bob](PER)")
    (fun _ => .nerData "hi Bob" [(3, 6, "PER")])
    (by rfl) (fun i _ => ⟨rfl, by rfl⟩)
  rw [h]
  rfl

/-- C6: `DataGenerator.run` resolves the parser/builder pair through the
registry before the generation loop, so an unknown task aborts the run with
no collaborator call and nothing persisted; and when the first failing
round is round `j` (a collaborator failure or a parser failure), the run
aborts carrying that round's error, nothing is persisted, and exactly
`j + 1` collaborator calls were made. -/
theorem C6_run_failfast :
    (∀ (task : String) (n : Nat) (system user : String) (tok : Tokenizer)
        (oracle : Nat → Except String String) (e : String),
       TaskHandler.get_handler task = .error e →
       DataGenerator.run task n system user tok oracle =
         { calls := [], persisted := none, err := some e }) ∧
    (∀ (task : String) (n : Nat) (system user : String) (tok : Tokenizer)
        (oracle : Nat → Except String String) (pc : ParserClass) (bc : BuilderClass)
        (resp : Nat → String) (pd : Nat → ParsedData) (j : Nat) (e : String),
       TaskHandler.get_handler task = .ok (pc, bc) → j < n →
       (∀ k, k < j → oracle k = .ok (resp k) ∧ parseFor pc (resp k) = .ok (pd k)) →
       (oracle j = .error e ∨ ∃ r, oracle j = .ok r ∧ parseFor pc r = .error e) →
       (DataGenerator.run task n system user tok oracle).persisted = none ∧
       (DataGenerator.run task n system user tok oracle).err = some e ∧
       (DataGenerator.run task n system user tok oracle).calls =
         List.replicate (j + 1) (user, system)) := by
  constructor
  · intro task n system user tok oracle e hh
    simp [DataGenerator.run, hh]
  · intro task n system user tok oracle pc bc resp pd j e hh hj hpre hfail
    obtain ⟨docs2, hloop⟩ := runLoop_fail pc bc tok oracle user system resp pd e
      j n 0 [] [] hj
      (fun k hk => by simpa using hpre k hk)
      (by simpa using hfail)
    simp only [DataGenerator.run, hh]
    rw [hloop]
    simp

/-- Witness for C6: an unknown task fails with no calls, and a `textcat`
run whose first response lacks the delimiter aborts unpersisted after one
call. -/
theorem C6_run_failfast_witness :
    DataGenerator.run "foo" 3 "sys" "usr" alignAll (fun _ => .ok "x") =
      { calls := [], persisted := none,
        err := some ("Unsupported task: " ++ "foo" ++
          ". Supported tasks: " ++ "ner, textcat") } ∧
    (DataGenerator.run "textcat" 2 "sys" "usr" alignAll (fun _ => .ok "no delim")).persisted
        = none ∧
    (DataGenerator.run "textcat" 2 "sys" "usr" alignAll (fun _ => .ok "no delim")).err
        = some "Invalid textcat format: missing --- delimiter" ∧
    (DataGenerator.run "textcat" 2 "sys" "usr" alignAll (fun _ => .ok "no delim")).calls
        = List.replicate 1 ("usr", "sys") := by
  refine ⟨?_, ?_⟩
  · exact C6_run_failfast.1 "foo" 3 "sys" "usr" alignAll (fun _ => .ok "x") _
      (C7_get_handler.2.2 "foo" (by decide) (by decide))
  · exact C6_run_failfast.2 "textcat" 2 "sys" "usr" alignAll (fun _ => .ok "no delim")
      .textcatParser .textcatBuilder (fun _ => "no delim") (fun _ => .textcatData "" [])
      0 "Invalid textcat format: missing --- delimiter" (by rfl) (by omega)
      (fun k hk => absurd hk (Nat.not_lt_zero k))
      (Or.inr ⟨"no delim", rfl, by rfl⟩)

theorem envRefName_mk (name : List Char) (hne : name ≠ []) (hmem : '\x7d' ∉ name) :
    envRefName ('$' :: '\x7b' :: (name ++ ['\x7d'])) = some name := by
  have h1 : takeUntil '\x7d' (name ++ ['\x7d']) = some (name, []) :=
    takeUntil_append '\x7d' name [] hmem
  simp [envRefName, h1, hne]

theorem envRefName_sound :
    ∀ l name, envRefName l = some name →
      name ≠ [] ∧ '\x7d' ∉ name ∧ l = '$' :: '\x7b' :: (name ++ ['\x7d']) := by
  intro l name h
  match l with
  | [] => simp [envRefName] at h
  | [c] => simp [envRefName] at h
  | c1 :: c2 :: rest =>
    by_cases h12 : c1 = '$' ∧ c2 = '\x7b'
    · obtain ⟨rfl, rfl⟩ := h12
      simp only [envRefName, and_self, if_pos] at h
      rcases ht : takeUntil '\x7d' rest with _ | ⟨nm, post⟩
      · rw [ht] at h; simp at h
      · rw [ht] at h
        have h2 : (if nm = [] ∨ post ≠ [] then (none : Option (List Char))
            else some nm) = some name := h
        by_cases hc : nm = [] ∨ post ≠ []
        · rw [if_pos hc] at h2; simp at h2
        · rw [if_neg hc] at h2
          simp only [Option.some.injEq] at h2
          subst h2
          push_neg at hc
          obtain ⟨hrest, hmem2⟩ := takeUntil_sound '\x7d' rest nm post ht
          refine ⟨hc.1, hmem2, ?_⟩
          rw [hrest, hc.2]
    · simp [envRefName, h12] at h

/-- C8: `_expand_env_vars` replaces a string value by the environment
variable's value exactly when the whole string matches `$\x7bNAME\x7d` (a
full match of the pattern, characterized in the third conjunct); every
other string — including strings merely containing the pattern as a proper
substring — is left literal; the rule is applied recursively through the
entries of mappings (keys untouched) and the items of sequences; and
non-string leaves (null, integers, booleans) are returned unchanged. -/
theorem C8_expand_env (env : String → Option String) :
    (∀ (name : List Char) (v : String), name ≠ [] → '\x7d' ∉ name →
       env (String.mk name) = some v →
       _expand_env_vars env (.str (String.mk ('$' :: '\x7b' :: (name ++ ['\x7d'])))) =
         .str v) ∧
    (∀ s : String, envRefName s.data = none → _expand_env_vars env (.str s) = .str s) ∧
    (∀ l : List Char, (envRefName l).isSome = true ↔
       ∃ name, name ≠ [] ∧ '\x7d' ∉ name ∧ l = '$' :: '\x7b' :: (name ++ ['\x7d'])) ∧
    (∀ entries, _expand_env_vars env (.dict entries) = .dict (expandEntries env entries)) ∧
    (∀ k v rest, expandEntries env (.cons k v rest) =
       .cons k (_expand_env_vars env v) (expandEntries env rest)) ∧
    (∀ v rest, expandItems env (.cons v rest) =
       .cons (_expand_env_vars env v) (expandItems env rest)) ∧
    (∀ items, _expand_env_vars env (.arr items) = .arr (expandItems env items)) ∧
    _expand_env_vars env .null = .null ∧
    (∀ n : Int, _expand_env_vars env (.intV n) = .intV n) ∧
    (∀ b : Bool, _expand_env_vars env (.boolV b) = .boolV b) := by
  refine ⟨?_, ?_, ?_, fun entries => rfl, fun k v rest => rfl, fun v rest => rfl,
    fun items => rfl, rfl, fun n => rfl, fun b => rfl⟩
  · intro name v hne hmem henv
    simp [_expand_env_vars, envRefName_mk name hne hmem, henv]
  · intro s hnone
    simp [_expand_env_vars, hnone]
  · intro l
    constructor
    · intro h
      rcases he : envRefName l with _ | name
      · rw [he] at h; simp at h
      · obtain ⟨h1, h2, h3⟩ := envRefName_sound l name he
        exact ⟨name, h1, h2, h3⟩
    · rintro ⟨name, h1, h2, rfl⟩
      rw [envRefName_mk name h1 h2]
      rfl

/-- Witness for C8: the exact pattern is replaced from a concrete
environment, and a string containing the pattern as a proper substring is
left literal. -/
theorem C8_expand_env_witness :
    _expand_env_vars (fun n => if n = "HOME" then some "/root" else none)
        (.str "$\x7bHOME\x7d") = .str "/root" ∧
    _expand_env_vars (fun n => if n = "HOME" then some "/root" else none)
        (.str "a $\x7bHOME\x7d") = .str "a $\x7bHOME\x7d" := by
  constructor
  · exact (C8_expand_env (fun n => if n = "HOME" then some "/root" else none)).1
      "HOME".data "/root" (by decide) (by decide) (by decide)
  · exact (C8_expand_env (fun n => if n = "HOME" then some "/root" else none)).2.1
      "a $\x7bHOME\x7d" (by decide)

/-- C9: when a string value is exactly `$\x7bNAME\x7d` and `NAME` is unset
in the environment, `_expand_env_vars` replaces the value by `null` (Python
`None`) rather than leaving the reference literal or failing — the function
is total, and in `load_llm_config` it runs before schema validation, so any
failure caused by the `null` surfaces only at the external validation step. -/
theorem C9_expand_unset (env : String → Option String) (name : List Char)
    (hne : name ≠ []) (hmem : '\x7d' ∉ name)
    (hunset : env (String.mk name) = none) :
    _expand_env_vars env (.str (String.mk ('$' :: '\x7b' :: (name ++ ['\x7d'])))) =
      .null ∧
    (∀ s : String, ConfigValue.null ≠ ConfigValue.str s) ∧
    (∀ (α : Type) (validate : ConfigValue → Except String α) (raw : ConfigValue),
       load_llm_config env validate raw = validate (_expand_env_vars env raw)) := by
  refine ⟨?_, fun s h => ConfigValue.noConfusion h, fun α validate raw => rfl⟩
  simp [_expand_env_vars, envRefName_mk name hne hmem, hunset]

/-- Witness for C9 at an empty environment. -/
theorem C9_expand_unset_witness :
    _expand_env_vars (fun _ => none) (.str "$\x7bHOME\x7d") = .null :=
  (C9_expand_unset (fun _ => none) "HOME".data (by decide) (by decide) rfl).1
